import Mathlib

/-!
# Verification of the BTF encoder core (btf_encoder.c)

A shallow embedding of the BTF (BPF Type Format) encoder of this repository:
the translation engine that turns a DWARF-derived compilation-unit (CU) tag
tree into BTF type records, together with the symbol-driven selection of
functions and per-CPU variables.

Conventions of the embedding:
* C machine integers are modelled as `Nat` with an explicit `% 2^32`
  (`U32`) where 32-bit wrap-around can matter; `int` status codes are `Int`
  (negative means failure).
* C strings are modelled as `String` (interned names) or `List Char`
  (the bytes of a NUL-terminated string, i.e. the characters strictly
  before the terminating NUL; a C string contains no NUL byte).
* The low-level BTF byte-buffer writer (`btf_elf__add_*`, libbtf) is an
  external collaborator.  Its successful behaviour, as described by the
  specification (§6), is a sequential writer: each `add` appends one type
  record and returns its 1-based id (the type count after the append).
  Where a claim concerns a writer *failure*, the failure is injected as an
  explicit parameter at exactly the call site the claim names.
* Stateful C code (file-scope statics) becomes explicit state passing.
-/

namespace BtfEnc

/-- 2^32, the modulus of `uint32_t` arithmetic. -/
def U32 : Nat := 4294967296

/-! ## Name Validator (btf_name_char_ok / btf_name_valid) -/

/-- `KSYM_NAME_LEN` from include/linux/kallsyms.h. -/
def KSYM_NAME_LEN : Nat := 128

/-- `btf_name_char_ok`: `_` and `.` are always fine; otherwise the first
character must be a letter and subsequent characters alphanumeric
(`isalpha`/`isalnum` in the default locale, i.e. ASCII). -/
def btf_name_char_ok (c : Char) (first : Bool) : Bool :=
  if c == '_' || c == '.' then true
  else if first then c.isAlpha else c.isAlphanum

/-- The `while (*p && p < limit)` loop of `btf_name_valid` followed by the
final `return !*p`.  `i` is the index of the current character (the C
pointer is `start + i`; `limit = start + KSYM_NAME_LEN`).  The input list
holds the characters from index `i` up to (excluding) the terminating NUL,
so an empty list means the current character is the NUL terminator. -/
def btf_name_valid_loop : List Char → Nat → Bool
  | [], _ => true
  | c :: rest, i =>
    if i < KSYM_NAME_LEN then btf_name_char_ok c false && btf_name_valid_loop rest (i + 1)
    else false

/-- `btf_name_valid`: check whether a name is valid in vmlinux BTF.
The argument is the list of characters of the NUL-terminated C string
(strictly before the terminating NUL). -/
def btf_name_valid : List Char → Bool
  | [] => false
  | c :: rest => btf_name_char_ok c true && btf_name_valid_loop rest 1

/-- The name language stated by the specification, parameterized by the
maximal total length: first character in `[A-Za-z_.]`, every subsequent
character in `[A-Za-z0-9_.]`, total length at most `maxLen`.  The
specification claims the validator accepts exactly this language with
`maxLen = 127`. -/
def spec_name_lang (maxLen : Nat) : List Char → Bool
  | [] => false
  | c :: rest =>
    (c.isAlpha || (c == '_' || c == '.'))
    && rest.all (fun d => d.isAlphanum || (d == '_' || d == '.'))
    && decide (rest.length + 1 ≤ maxLen)

/-! ## Array element count (array_type__nelems) -/

/-- `array_type__nelems`: `uint32_t nelem = 1;` then
`for (i = dimensions - 1; i >= 0; --i) nelem *= array->nr_entries[i];`.
The dimension list is given in declaration order (`nr_entries[0]` first),
so the C loop folds over the reversed list; the multiplication is
`uint32_t`, hence the `% U32`. -/
def array_type__nelems (nr_entries : List Nat) : Nat :=
  nr_entries.reverse.foldl (fun nelem n => nelem * n % U32) 1

/-! ## ELF function table and function filter -/

/-- `struct elf_function`. -/
structure ElfFunction where
  name : String
  addr : Nat
  generated : Bool
  deriving DecidableEq, Repr

/-- `struct funcs_layout`: the six well-known address anchors. -/
structure FuncsLayout where
  mcount_start : Nat
  mcount_stop : Nat
  init_begin : Nat
  init_end : Nat
  init_bpf_begin : Nat
  init_bpf_end : Nat
  mcount_sec_idx : Nat
  deriving DecidableEq, Repr

/-- `is_init`: `addr >= fl->init_begin && addr < fl->init_end`. -/
def is_init (fl : FuncsLayout) (addr : Nat) : Bool :=
  decide (fl.init_begin ≤ addr) && decide (addr < fl.init_end)

/-- `is_bpf_init`: `addr >= fl->init_bpf_begin && addr < fl->init_bpf_end`. -/
def is_bpf_init (fl : FuncsLayout) (addr : Nat) : Bool :=
  decide (fl.init_bpf_begin ≤ addr) && decide (addr < fl.init_bpf_end)

/-- The in-place compaction loop of `filter_functions`: each entry is
dropped when it is in the init range but not in the bpf-preserve-type
sub-range, and otherwise kept iff its address is found (bsearch) in the
sorted mcount address array.  The C library `bsearch` over the sorted
array finds an element iff it is present, modelled as list membership. -/
def filter_functions_loop (fl : FuncsLayout) (addrs : List Nat) :
    List ElfFunction → List ElfFunction
  | [] => []
  | f :: rest =>
    if is_init fl f.addr && !is_bpf_init fl f.addr then
      filter_functions_loop fl addrs rest
    else if addrs.contains f.addr then
      f :: filter_functions_loop fl addrs rest
    else
      filter_functions_loop fl addrs rest

/-- `filter_functions` (after the section has been read): `addrs` is the raw
mcount address table copied from the section data; the source `qsort`s it
and then walks the collected function table, compacting it in place. -/
def filter_functions (fl : FuncsLayout) (addrs : List Nat)
    (funcs : List ElfFunction) : List ElfFunction :=
  let sorted := addrs.mergeSort (fun a b => decide (a ≤ b))
  filter_functions_loop fl sorted funcs

/-! ## Tags (the DWARF-derived type model) -/

/-- The original kind of a composite tag: `DW_TAG_structure_type`,
`DW_TAG_union_type` or `DW_TAG_class_type` (class is treated as struct). -/
inductive CompKind where
  | structK
  | unionK
  | classK
  deriving DecidableEq, Repr

/-- `struct class_member`: interned name, referenced type's core ID,
bit-field size (0 when not a bit-field) and bit offset. -/
structure ClassMember where
  name : String
  typ : Nat
  bitfield_size : Nat
  bit_offset : Nat
  deriving DecidableEq, Repr

/-- `struct tag` and its variants, as dispatched by `tag__encode_btf`.
Each constructor carries the fields the encoder reads: `typ` is the C
`tag->type` (the core ID of the referenced tag, 0 meaning void).  The
`unsupported` constructor stands for every `DW_TAG_*` outside the switch. -/
inductive Tag where
  | base_type (name : String) (bit_size : Nat)
  | const_type (typ : Nat)
  | pointer_type (typ : Nat)
  | restrict_type (typ : Nat)
  | volatile_type (typ : Nat)
  | typedef (typ : Nat) (name : String)
  | composite (kind : CompKind) (typ : Nat) (name : String) (declaration : Bool)
      (size : Nat) (members : List ClassMember)
  | array_type (typ : Nat) (nr_entries : List Nat)
  | enumeration_type (name : String) (size : Nat) (enumerators : List (String × Int))
  | subroutine_type (typ : Nat)
  | unsupported (tagval : Nat) (typ : Nat)
  deriving DecidableEq, Repr

/-- Whether a tag is `DW_TAG_array_type` (the only kind that sets
`need_index_type`). -/
def Tag.isArray : Tag → Bool
  | .array_type _ _ => true
  | _ => false

/-- Whether a tag falls into the `default:` branch of `tag__encode_btf`. -/
def Tag.isUnsupported : Tag → Bool
  | .unsupported _ _ => true
  | _ => false

/-! ## The BTF writer (external collaborator, libbtf) -/

/-- The BTF ref-type kinds used by the encoder
(`BTF_KIND_{CONST,PTR,RESTRICT,VOLATILE,TYPEDEF,FWD,FUNC}`). -/
inductive BtfKind where
  | constK
  | ptrK
  | restrictK
  | volatileK
  | typedefK
  | fwdK
  | funcK
  deriving DecidableEq, Repr

/-- One entry of the writer's per-CPU section-info buffer
(`BTF_VAR_SECINFO`). -/
structure SecInfo where
  var_id : Nat
  offset : Nat
  size : Nat
  deriving DecidableEq, Repr

/-- One BTF type record held by the writer.  Struct members and enum
values, which the C writer attaches to the preceding header record via
`btf_elf__add_member` / `btf_elf__add_enum_val` (status-returning calls
that do not create a new type id), are stored inside their record. -/
inductive BtfRecord where
  | base (name : String) (bit_size : Nat)
  | ref (kind : BtfKind) (type_id : Nat) (name : Option String) (kind_flag : Bool)
  | structRec (isUnion : Bool) (name : String) (size : Nat)
      (members : List (String × Nat × Nat × Nat))
  | arrayRec (elem_type : Nat) (index_type : Nat) (nelems : Nat)
  | enumRec (name : String) (size : Nat) (vals : List (String × Int))
  | funcProto
  | varRec (type_id : Nat) (name : String) (linkage : Nat)
  | datasecRec (name : String) (info : List SecInfo)
  deriving DecidableEq, Repr

/-- Modelled from the spec: the external BTF writer's successful `add`
behaviour (§6): append one type record and return its 1-based type id,
which equals the writer's type count after the append. -/
def btf__add (w : List BtfRecord) (r : BtfRecord) : Int × List BtfRecord :=
  (((w.length + 1 : Nat) : Int), w ++ [r])

/-- `uint32_t ref_type_id = tag->type == 0 ? 0 : type_id_off + tag->type;`
type 0 is void and maps to BTF id 0; everything else is offset (with
`uint32_t` wrap-around). -/
def ref_type_id_of (type_id_off typ : Nat) : Nat :=
  if typ = 0 then 0 else (type_id_off + typ) % U32

/-! ## Type Encoder (tag__encode_btf and helpers) -/

/-- `structure_type__encode`: add a STRUCT or UNION header (UNION iff the
original tag was `DW_TAG_union_type`) with name and size, then one member
record per data member in declared order, with referenced type
`type_id_off + member.type` (`uint32_t`), the bit-field size and the
unchanged bit offset. -/
def structure_type__encode (kind : CompKind) (name : String) (size : Nat)
    (members : List ClassMember) (type_id_off : Nat) (w : List BtfRecord) :
    Int × List BtfRecord :=
  btf__add w (.structRec (decide (kind = CompKind.unionK)) name size
    (members.map (fun m => (m.name, (type_id_off + m.typ) % U32, m.bitfield_size, m.bit_offset))))

/-- `enumeration_type__encode`: add an ENUM header with name and size and
each enumerator (name, value) in declared order. -/
def enumeration_type__encode (name : String) (size : Nat)
    (vals : List (String × Int)) (w : List BtfRecord) : Int × List BtfRecord :=
  btf__add w (.enumRec name size vals)

/-- `tag__encode_btf`: dispatch on the tag kind and emit one BTF record.
Returns the id handed back by the writer (`-1` for an unsupported tag),
the updated writer and whether this tag set the `need_index_type` flag
(only `DW_TAG_array_type` does). -/
def tag__encode_btf (tag : Tag) (array_index_id type_id_off : Nat)
    (w : List BtfRecord) : Int × List BtfRecord × Bool :=
  match tag with
  | .base_type name bit_size =>
    let r := btf__add w (.base name bit_size)
    (r.1, r.2, false)
  | .const_type t =>
    let r := btf__add w (.ref .constK (ref_type_id_of type_id_off t) none false)
    (r.1, r.2, false)
  | .pointer_type t =>
    let r := btf__add w (.ref .ptrK (ref_type_id_of type_id_off t) none false)
    (r.1, r.2, false)
  | .restrict_type t =>
    let r := btf__add w (.ref .restrictK (ref_type_id_of type_id_off t) none false)
    (r.1, r.2, false)
  | .volatile_type t =>
    let r := btf__add w (.ref .volatileK (ref_type_id_of type_id_off t) none false)
    (r.1, r.2, false)
  | .typedef t name =>
    let r := btf__add w (.ref .typedefK (ref_type_id_of type_id_off t) (some name) false)
    (r.1, r.2, false)
  | .composite kind _t name declaration size members =>
    if declaration then
      let r := btf__add w (.ref .fwdK 0 (some name) (decide (kind = CompKind.unionK)))
      (r.1, r.2, false)
    else
      let r := structure_type__encode kind name size members type_id_off w
      (r.1, r.2, false)
  | .array_type t dims =>
    let r := btf__add w (.arrayRec (ref_type_id_of type_id_off t) array_index_id
      (array_type__nelems dims))
    (r.1, r.2, true)
  | .enumeration_type name size vals =>
    let r := enumeration_type__encode name size vals w
    (r.1, r.2, false)
  | .subroutine_type _t =>
    let r := btf__add w .funcProto
    (r.1, r.2, false)
  | .unsupported _ _ => (-1, w, false)

/-- `tag__check_id_drift`: the id returned by the writer must equal
`core_id + type_id_off` (a `uint32_t` sum); on mismatch report and return
-1. -/
def tag__check_id_drift (core_id btf_type_id type_id_off : Nat) : Int :=
  if btf_type_id ≠ (core_id + type_id_off) % U32 then -1 else 0

/-- The `cu__for_each_type` loop of `cu__encode_btf` (type pass) over the
sequential writer: encode each tag in core-ID order, abort with -1 as soon
as the writer returns a negative id or the ID-drift check fails
(`goto out`).  Carries the `need_index_type` flag and the writer. -/
def cu_type_pass (array_index_id type_id_off : Nat) (need : Bool)
    (w : List BtfRecord) (core_id : Nat) : List Tag → Int × Bool × List BtfRecord
  | [] => (0, need, w)
  | t :: rest =>
    let r := tag__encode_btf t array_index_id type_id_off w
    let need' := need || r.2.2
    if r.1 < 0 then (-1, need', r.2.1)
    else if tag__check_id_drift core_id r.1.toNat type_id_off ≠ 0 then (-1, need', r.2.1)
    else cu_type_pass array_index_id type_id_off need' r.2.1 (core_id + 1) rest

/-- The same type-pass loop with the writer's returned ids abstracted into
an oracle `ret : core_id → returned id`: this is the loop of
`cu__encode_btf` (lines with `tag__encode_btf` / `tag__check_id_drift`)
for an arbitrary writer, used to verify the ID-drift invariant. -/
def cu_type_pass_ids (ret : Nat → Int) (type_id_off : Nat) : List Nat → Int
  | [] => 0
  | core_id :: rest =>
    let btf_type_id := ret core_id
    if btf_type_id < 0 then -1
    else if tag__check_id_drift core_id btf_type_id.toNat type_id_off ≠ 0 then -1
    else cu_type_pass_ids ret type_id_off rest

/-! ## Array-index-type preparation and synthetic index type -/

/-- Helper walk for `cu__find_base_type_by_name`: 1-based core IDs. -/
def findBaseTypeGo (name : String) : List Tag → Nat → Option Nat
  | [], _ => none
  | Tag.base_type n _ :: rest, i =>
    if n = name then some i else findBaseTypeGo name rest (i + 1)
  | _ :: rest, i => findBaseTypeGo name rest (i + 1)

/-- Modelled from the spec: `cu__find_base_type_by_name` (part of the CU
loader, not under src/): the name-to-base-type lookup keyed on a name —
"search the CU for a base type named int" — returning the core ID of a
base type with that name in the CU's type table, if any. -/
def cu__find_base_type_by_name (types : List Tag) (name : String) : Option Nat :=
  findBaseTypeGo name types 1

/-- The array-index-type preparation of `cu__encode_btf`: when
`has_index_type` is still false, look for a base type named "int"; if
found, `array_index_id = type_id_off + id`; otherwise reserve one slot
past the end of the CU's type table (`type_id_off + nr_entries`).  Both
assignments are `uint32_t`.  Returns the new
(`has_index_type`, `array_index_id`). -/
def index_prep (has_index_type : Bool) (array_index_id type_id_off nr_entries : Nat)
    (found : Option Nat) : Bool × Nat :=
  if has_index_type then (has_index_type, array_index_id)
  else
    match found with
    | some id => (true, (type_id_off + id) % U32)
    | none => (false, (type_id_off + nr_entries) % U32)

/-- The synthetic-index-type step of `cu__encode_btf` (after the type
pass): if any array was encoded and no real "int" was found, add one
32-bit base type named `__ARRAY_SIZE_TYPE__` and set `has_index_type`.
The source does NOT check the value returned by `btf_elf__add_base_type`
at this call site; `synthFail = true` models the writer rejecting the add
(returning a negative id, storing nothing) — the source proceeds
identically.  Returns the new `has_index_type` and the writer. -/
def cu_synthetic_step (need_index_type has_index_type synthFail : Bool)
    (w : List BtfRecord) : Bool × List BtfRecord :=
  if need_index_type && !has_index_type then
    (true, if synthFail then w else w ++ [.base "__ARRAY_SIZE_TYPE__" 32])
  else (has_index_type, w)

/-- Lines 683–712 of the source, combined: snapshot `type_id_off` (the
writer's type count), run the array-index-type preparation, the type pass
and the synthetic-index-type step.  Returns
`(err, has_index_type, array_index_id, need_index_type, writer)`; on a
type-pass error the synthetic step is not reached (`goto out`). -/
def cu_encode_types (tags : List Tag) (synthFail has_index_type : Bool)
    (array_index_id : Nat) (need_index_type : Bool) (w : List BtfRecord) :
    Int × Bool × Nat × Bool × List BtfRecord :=
  let type_id_off := w.length
  let p := index_prep has_index_type array_index_id type_id_off tags.length
    (cu__find_base_type_by_name tags "int")
  let r := cu_type_pass p.2 type_id_off need_index_type w 1 tags
  if r.1 < 0 then (-1, p.1, p.2, r.2.1, r.2.2)
  else
    let s := cu_synthetic_step r.2.1 p.1 synthFail r.2.2
    (0, s.1, p.2, r.2.1, s.2)

/-! ## Function pass -/

/-- `struct function` as read by the function pass: resolved name,
parameter names (as resolved by the string interner, `none` when the
resolver returns NULL), and the `declaration` / `external` flags.
`function__name(fn, cu)` and `strings__ptr(cu, fn->name)` are both
modelled by the `name` field. -/
structure Function where
  name : String
  params : List (Option String)
  declaration : Bool
  external : Bool
  deriving DecidableEq, Repr

/-- `has_arg_names`: every parameter's name must resolve to a non-NULL
string; vacuously true for an empty parameter list. -/
def has_arg_names (params : List (Option String)) : Bool :=
  params.all (fun p => p.isSome)

/-- `should_generate_function`: bsearch the (name-sorted) function table
for the name; fail when absent or already generated, otherwise set the
entry's `generated` flag and succeed.  `bsearch` over the name-sorted,
duplicate-free table locates the unique entry with the name, modelled as
the first match.  Returns the answer and the updated table. -/
def should_generate_function : List ElfFunction → String → Bool × List ElfFunction
  | [], _ => (false, [])
  | f :: rest, name =>
    if f.name = name then
      if f.generated then (false, f :: rest)
      else (true, { f with generated := true } :: rest)
    else
      let r := should_generate_function rest name
      (r.1, f :: r.2)

/-- The emission of one function: `btf_elf__add_func_proto` (one
FUNC_PROTO record) followed by `btf_elf__add_ref_type(BTF_KIND_FUNC, ...)`
pointing at it, named after the function. -/
def emit_function (w : List BtfRecord) (name : String) : List BtfRecord :=
  let r1 := btf__add w .funcProto
  (btf__add r1.2 (.ref .funcK r1.1.toNat (some name) false)).2

/-- One iteration of the `cu__for_each_function` loop: with a non-empty
function table (kernel mode) skip unless all argument names are present
and `should_generate_function` succeeds; with an empty table (standalone
mode) skip declarations and non-external functions.  Returns the updated
table and writer. -/
def cu_func_step (tbl : List ElfFunction) (w : List BtfRecord) (fn : Function) :
    List ElfFunction × List BtfRecord :=
  if tbl.length ≠ 0 then
    if !has_arg_names fn.params then (tbl, w)
    else
      let r := should_generate_function tbl fn.name
      if r.1 then (r.2, emit_function w fn.name) else (r.2, w)
  else
    if fn.declaration || !fn.external then (tbl, w)
    else (tbl, emit_function w fn.name)

/-- The function pass of `cu__encode_btf` over one CU's functions. -/
def cu_func_pass (tbl : List ElfFunction) (w : List BtfRecord) :
    List Function → List ElfFunction × List BtfRecord
  | [] => (tbl, w)
  | fn :: rest =>
    let r := cu_func_step tbl w fn
    cu_func_pass r.1 r.2 rest

/-- An encoding session's function passes across several CUs sharing one
BTF writer: the function table persists from CU to CU. -/
def session_func_pass (tbl : List ElfFunction) (w : List BtfRecord) :
    List (List Function) → List ElfFunction × List BtfRecord
  | [] => (tbl, w)
  | fns :: cus =>
    let r := cu_func_pass tbl w fns
    session_func_pass r.1 r.2 cus

/-- The names of the FUNC entries in the writer's type table. -/
def funcNames (w : List BtfRecord) : List String :=
  w.filterMap (fun r =>
    match r with
    | .ref .funcK _ (some n) _ => some n
    | _ => none)

/-! ## Per-CPU variables and the variable pass -/

/-- `struct var_info`: a collected per-CPU symbol. -/
structure VarInfo where
  addr : Nat
  sz : Nat
  name : String
  deriving DecidableEq, Repr

/-- `percpu_var_exists`: bsearch the address-sorted per-CPU table for the
address, yielding `(size, name)` when present (modelled as the first
match). -/
def percpu_var_exists (percpu : List VarInfo) (addr : Nat) : Option (Nat × String) :=
  match percpu.find? (fun p => p.addr == addr) with
  | some p => some (p.sz, p.name)
  | none => none

/-- The fields of `struct variable` read by the variable pass (shared by a
variable and the definition its `spec` link points to). -/
structure VarData where
  scope_global : Bool
  addr : Nat
  typ : Nat
  external : Bool
  deriving DecidableEq, Repr

/-- A variable tag of the CU: `declaration` flag, own data and the
optional `spec` link resolving a declaration to its definition. -/
structure Variable where
  declaration : Bool
  data : VarData
  spec : Option VarData
  deriving DecidableEq, Repr

/-- `BTF_VAR_GLOBAL_ALLOCATED` (resolved variable is external) or
`BTF_VAR_STATIC`. -/
def linkage_of (external : Bool) : Nat :=
  if external then 1 else 0

/-- The `cu__for_each_variable` loop of `cu__encode_btf`: skip
declarations without a spec link and non-global variables without a spec
link; record the address before following the spec link; skip addresses
absent from the per-CPU table; a resolved type of 0 (void) is an error —
skipped under force, otherwise fatal (`err = -1; break`); otherwise add a
VAR record (type `var->ip.tag.type + type_id_off`, a `uint32_t`) and a
section-info entry `{id, addr - percpu_base_addr, size}` (`uint32_t`
offset).  The sequential writer's `add_var_type`/`add_var_secinfo` never
fail.  Returns `(err, writer, secinfo)`. -/
def cu_var_pass (force : Bool) (type_id_off percpu_base_addr : Nat)
    (percpu : List VarInfo) (w : List BtfRecord) (secinfo : List SecInfo) :
    List Variable → Int × List BtfRecord × List SecInfo
  | [] => (0, w, secinfo)
  | v :: rest =>
    if v.declaration && v.spec.isNone then
      cu_var_pass force type_id_off percpu_base_addr percpu w secinfo rest
    else if !v.data.scope_global && v.spec.isNone then
      cu_var_pass force type_id_off percpu_base_addr percpu w secinfo rest
    else
      let addr := v.data.addr
      let d := v.spec.getD v.data
      match percpu_var_exists percpu addr with
      | none => cu_var_pass force type_id_off percpu_base_addr percpu w secinfo rest
      | some (size, name) =>
        if d.typ = 0 then
          if force then cu_var_pass force type_id_off percpu_base_addr percpu w secinfo rest
          else (-1, w, secinfo)
        else
          let r := btf__add w (.varRec ((d.typ + type_id_off) % U32) name (linkage_of d.external))
          let secinfo' := secinfo ++ [⟨r.1.toNat, (addr - percpu_base_addr) % U32, size⟩]
          cu_var_pass force type_id_off percpu_base_addr percpu r.2 secinfo' rest

/-! ## The CU driver (cu__encode_btf body) and finalization -/

/-- The state of the active BTF writer (`struct btf_elf`) that the encoder
reads: the accumulated type table, the per-CPU section-info buffer, the
per-CPU section index, whether a symbol table is present, and the per-CPU
section base address. -/
structure Btfe where
  types : List BtfRecord
  percpu_secinfo : List SecInfo
  percpu_shndx : Nat
  has_symtab : Bool
  percpu_base_addr : Nat
  deriving DecidableEq, Repr

/-- The encoder's file-scope static state other than the active writer:
the collected function table, the per-CPU variable table, and the
array-index-type flags. -/
structure GlobalState where
  functions : List ElfFunction
  percpu_vars : List VarInfo
  has_index_type : Bool
  need_index_type : Bool
  array_index_id : Nat
  deriving DecidableEq, Repr

/-- A compilation unit as consumed by `cu__encode_btf`. -/
structure Cu where
  types : List Tag
  functions : List Function
  vars : List Variable
  deriving DecidableEq, Repr

/-- The body of `cu__encode_btf` with an active writer `b` (the
session-switch and writer-creation branches at the top call external
`btf_elf__new` / `collect_symbols` and are outside this model): snapshot
`type_id_off`, run index preparation, the type pass, the synthetic-index
step, the function pass and (unless skipped) the variable pass.  A failing
pass jumps to `out`, where the error path deletes the function table and
the writer (`btfe = NULL`).  Returns the status, the new active writer
(`none` after teardown) and the new global state.  `synthFail` injects a
negative return of `btf_elf__add_base_type` at the synthetic-index call
site, whose result the source ignores. -/
def cu__encode_btf_body (cu : Cu) (force skip_encoding_vars synthFail : Bool)
    (b : Btfe) (g : GlobalState) : Int × Option Btfe × GlobalState :=
  let type_id_off := b.types.length
  let r := cu_encode_types cu.types synthFail g.has_index_type g.array_index_id
    g.need_index_type b.types
  let g1 : GlobalState :=
    { g with
      has_index_type := r.2.1
      array_index_id := r.2.2.1
      need_index_type := r.2.2.2.1 }
  if r.1 < 0 then (-1, none, { g1 with functions := [] })
  else
    let f := cu_func_pass g.functions r.2.2.2.2 cu.functions
    let g2 := { g1 with functions := f.1 }
    if skip_encoding_vars then (0, some { b with types := f.2 }, g2)
    else if b.percpu_shndx = 0 ∨ b.has_symtab = false then
      (0, some { b with types := f.2 }, g2)
    else
      let v := cu_var_pass force type_id_off b.percpu_base_addr g.percpu_vars f.2
        b.percpu_secinfo cu.vars
      if v.1 < 0 then (-1, none, { g2 with functions := [] })
      else (0, some { b with types := v.2.1, percpu_secinfo := v.2.2 }, g2)

/-- `PERCPU_SECTION`, the name of the per-CPU data section. -/
def PERCPU_SECTION : String := ".data..percpu"

/-- `btf_encoder__encode` (finalization): when the per-CPU section-info
buffer is non-empty, add a DATASEC record for the per-CPU section — the
value returned by `btf_elf__add_datasec_type` is not checked
(`datasecFail = true` models the writer rejecting the add and storing
nothing); then flush the writer (`btf_elf__encode`, whose status
`encodeRet` is the function's result), delete the function table, delete
the writer and null the active pointer.  Returns
`(status, flushed type table, new active writer, new global state)`. -/
def btf_encoder__encode (datasecFail : Bool) (encodeRet : Int) (b : Btfe)
    (g : GlobalState) : Int × List BtfRecord × Option Btfe × GlobalState :=
  let types' :=
    if b.percpu_secinfo.length ≠ 0 then
      if datasecFail then b.types
      else b.types ++ [.datasecRec PERCPU_SECTION b.percpu_secinfo]
    else b.types
  (encodeRet, types', none, { g with functions := [] })

/-- The number of entries of the function table carrying a given name whose
`generated` flag is still clear (an accounting device for the at-most-once
property of the function pass). -/
def countFree (tbl : List ElfFunction) (n : String) : Nat :=
  tbl.countP (fun f => f.name == n && !f.generated)

/-! # Theorems -/

/-! ## Name Validator (claim C6) -/

lemma char_ok_first (c : Char) :
    btf_name_char_ok c true = (c.isAlpha || (c == '_' || c == '.')) := by
  unfold btf_name_char_ok
  cases h : (c == '_' || c == '.') <;> simp [h]

lemma char_ok_rest (c : Char) :
    btf_name_char_ok c false = (c.isAlphanum || (c == '_' || c == '.')) := by
  unfold btf_name_char_ok
  cases h : (c == '_' || c == '.') <;> simp [h]

lemma btf_name_valid_loop_eq (r : List Char) :
    ∀ i, i ≤ 128 →
      btf_name_valid_loop r i
        = (r.all (fun d => btf_name_char_ok d false) && decide (r.length + i ≤ 128)) := by
  induction r with
  | nil => intro i hi; simp [btf_name_valid_loop, hi]
  | cons c rest ih =>
    intro i hi
    by_cases hlt : i < 128
    · have h1 : btf_name_valid_loop (c :: rest) i
          = (btf_name_char_ok c false && btf_name_valid_loop rest (i + 1)) := by
        simp [btf_name_valid_loop, KSYM_NAME_LEN, hlt]
      have h2 : decide (rest.length + (i + 1) ≤ 128)
          = decide ((c :: rest).length + i ≤ 128) :=
        decide_eq_decide.mpr (by simp only [List.length_cons]; omega)
      rw [h1, ih (i + 1) (by omega), h2, List.all_cons, Bool.and_assoc]
    · have hi128 : i = 128 := by omega
      subst hi128
      have h1 : btf_name_valid_loop (c :: rest) 128 = false := by
        simp [btf_name_valid_loop, KSYM_NAME_LEN]
      have h2 : decide ((c :: rest).length + 128 ≤ 128) = false :=
        decide_eq_false (by simp only [List.length_cons]; omega)
      rw [h1, h2, Bool.and_false]

/-- C6 (amended): `btf_name_valid` accepts exactly the language
`[A-Za-z_.][A-Za-z0-9_.]{0,127}` — total length at most 128, not 127 as
the claim states: the loop limit `p + KSYM_NAME_LEN` stops the scan at
index 128 and the final `return !*p` then reads the NUL of a 128-character
name one byte past the window. -/
theorem C6_btf_name_valid (s : List Char) :
    btf_name_valid s = spec_name_lang 128 s := by
  cases s with
  | nil => rfl
  | cons c rest =>
    simp only [btf_name_valid]
    rw [btf_name_valid_loop_eq rest 1 (by omega), char_ok_first]
    simp only [spec_name_lang]
    have hall : rest.all (fun d => btf_name_char_ok d false)
        = rest.all (fun d => d.isAlphanum || (d == '_' || d == '.')) := by
      simp only [char_ok_rest]
    rw [hall, Bool.and_assoc]

set_option maxRecDepth 8000 in
/-- C6 counterexample: the name consisting of 128 letters `a` is accepted
by `btf_name_valid` but lies outside the claimed language
`[A-Za-z_.][A-Za-z0-9_.]{0,126}` (total length at most 127). -/
theorem C6_counterexample :
    btf_name_valid (List.replicate 128 'a') = true
      ∧ spec_name_lang 127 (List.replicate 128 'a') = false := by
  constructor
  · decide
  · decide

/-! ## Array element count (claim C9) -/

lemma foldl_mul_mod (l : List Nat) :
    ∀ a : Nat, l.foldl (fun x n => x * n % U32) (a % U32) = a * l.prod % U32 := by
  induction l with
  | nil => intro a; simp
  | cons n t ih =>
    intro a
    show t.foldl _ (a % U32 * n % U32) = _
    rw [Nat.mod_mul_mod, ih (a * n)]
    simp [Nat.mul_assoc]

lemma array_type__nelems_eq (dims : List Nat) :
    array_type__nelems dims = dims.prod % U32 := by
  unfold array_type__nelems
  have h1 : (1 : Nat) = 1 % U32 := by decide
  rw [h1, foldl_mul_mod]
  simp [List.prod_reverse]

/-- C9 (amended): the element count passed to the writer's `add_array` is
the product of all dimension entry counts reduced modulo 2^32 (`nelem` is
a `uint32_t`); whenever the exact product is below 2^32 — e.g. 12 for
`[4][3]` — the two coincide. -/
theorem C9_array_nelems (t : Nat) (dims : List Nat) (aid off : Nat) (w : List BtfRecord) :
    tag__encode_btf (.array_type t dims) aid off w
        = (((w.length + 1 : Nat) : Int),
           w ++ [.arrayRec (ref_type_id_of off t) aid (dims.prod % U32)], true)
    ∧ (dims.prod < U32 → array_type__nelems dims = dims.prod) := by
  constructor
  · simp [tag__encode_btf, btf__add, array_type__nelems_eq]
  · intro h
    rw [array_type__nelems_eq, Nat.mod_eq_of_lt h]

theorem C9_witness :
    tag__encode_btf (.array_type 0 [4, 3]) 1 0 [] = (1, [.arrayRec 0 1 12], true)
      ∧ array_type__nelems [4, 3] = 12 := by
  have h := C9_array_nelems 0 [4, 3] 1 0 []
  exact ⟨h.1.trans (by decide), (h.2 (by decide)).trans (by decide)⟩

/-- C9 counterexample: for the array `[65536][65536]` the count handed to
`add_array` is 0 (`uint32_t` overflow), not the exact product 2^32. -/
theorem C9_counterexample :
    tag__encode_btf (.array_type 0 [65536, 65536]) 1 0 [] = (1, [.arrayRec 0 1 0], true)
      ∧ ([65536, 65536] : List Nat).prod = 4294967296 := by
  constructor
  · decide
  · decide

/-! ## Function filter (claim C5) -/

lemma filter_functions_loop_eq (fl : FuncsLayout) (addrs : List Nat) :
    ∀ funcs, filter_functions_loop fl addrs funcs
      = funcs.filter (fun f =>
          ((!is_init fl f.addr) || is_bpf_init fl f.addr) && addrs.contains f.addr) := by
  intro funcs
  induction funcs with
  | nil => rfl
  | cons f rest ih =>
    simp only [filter_functions_loop, List.filter_cons]
    cases h1 : is_init fl f.addr <;> cases h2 : is_bpf_init fl f.addr <;>
      cases h3 : addrs.contains f.addr <;> simp [h1, h2, h3, ih]

/-- C5: after `filter_functions`, the function table holds exactly the
previously collected entries that are outside the init range (or inside
the bpf-preserve-type sub-range) and whose address occurs in the mcount
address table; since the compaction is a filter, a name-sorted input stays
name-sorted. -/
theorem C5_filter_functions (fl : FuncsLayout) (addrs : List Nat)
    (funcs : List ElfFunction)
    (hsorted : funcs.Pairwise (fun a b => a.name ≤ b.name)) :
    filter_functions fl addrs funcs
        = funcs.filter (fun f =>
            ((!is_init fl f.addr) || is_bpf_init fl f.addr) && addrs.contains f.addr)
    ∧ (filter_functions fl addrs funcs).Pairwise (fun a b => a.name ≤ b.name) := by
  have hmem : ∀ a : Nat,
      (addrs.mergeSort (fun a b => decide (a ≤ b))).contains a = addrs.contains a := by
    intro a
    have hperm := List.mergeSort_perm addrs (fun a b => decide (a ≤ b))
    simp only [List.contains, List.elem_eq_mem]
    exact decide_eq_decide.mpr hperm.mem_iff
  have heq : filter_functions fl addrs funcs
      = funcs.filter (fun f =>
          ((!is_init fl f.addr) || is_bpf_init fl f.addr) && addrs.contains f.addr) := by
    unfold filter_functions
    rw [filter_functions_loop_eq]
    exact List.filter_congr (fun f _ => by rw [hmem])
  exact ⟨heq, heq ▸ List.Pairwise.sublist (List.filter_sublist _) hsorted⟩

theorem C5_witness :
    filter_functions ⟨0, 0, 10, 20, 12, 14, 0⟩ [5] [⟨"a", 5, false⟩] = [⟨"a", 5, false⟩]
      ∧ (filter_functions ⟨0, 0, 10, 20, 12, 14, 0⟩ [5]
          [⟨"a", 5, false⟩]).Pairwise (fun a b => a.name ≤ b.name) := by
  have h := C5_filter_functions ⟨0, 0, 10, 20, 12, 14, 0⟩ [5] [⟨"a", 5, false⟩]
    (List.pairwise_singleton _ _)
  exact ⟨h.1.trans (by decide), h.2⟩

/-! ## ID-drift invariant (claim C1) -/

/-- C1: over the type pass with an arbitrary writer (`ret` gives the id the
writer returns for each core ID), either every encoded tag's returned id
equals `type_id_off + core_id` and the pass succeeds, or some encoded
tag's id differs (or is negative) and the pass — hence `cu__encode_btf`,
which returns the pass's error by `goto out` — yields the fatal status -1
instead of continuing. -/
theorem C1_id_drift (ret : Nat → Int) (type_id_off : Nat) (ids : List Nat)
    (hb : ∀ c ∈ ids, type_id_off + c < U32) :
    (cu_type_pass_ids ret type_id_off ids = 0
      ∧ ∀ c ∈ ids, ret c = ((type_id_off + c : Nat) : Int))
    ∨ (cu_type_pass_ids ret type_id_off ids = -1
      ∧ ∃ c ∈ ids, ret c ≠ ((type_id_off + c : Nat) : Int)) := by
  induction ids with
  | nil => exact Or.inl ⟨rfl, by simp⟩
  | cons c rest ih =>
    have hbc : type_id_off + c < U32 := hb c (by simp)
    have hb' : ∀ x ∈ rest, type_id_off + x < U32 := fun x hx => hb x (by simp [hx])
    by_cases hneg : ret c < 0
    · refine Or.inr ⟨by simp [cu_type_pass_ids, hneg], c, by simp, fun he => ?_⟩
      rw [he] at hneg
      omega
    · have hnn : 0 ≤ ret c := not_lt.mp hneg
      by_cases hdrift : (ret c).toNat = type_id_off + c
      · have hret : ret c = ((type_id_off + c : Nat) : Int) := by
          rw [← hdrift, Int.toNat_of_nonneg hnn]
        have hd0 : tag__check_id_drift c (ret c).toNat type_id_off = 0 := by
          unfold tag__check_id_drift
          rw [if_neg]
          simp only [ne_eq, not_not]
          rw [hdrift, Nat.mod_eq_of_lt (by omega)]
          omega
        have hstep : cu_type_pass_ids ret type_id_off (c :: rest)
            = cu_type_pass_ids ret type_id_off rest := by
          simp [cu_type_pass_ids, hneg, hd0]
        rcases ih hb' with ⟨h0, hall⟩ | ⟨h1, cx, hcx, hne⟩
        · refine Or.inl ⟨hstep.trans h0, fun x hx => ?_⟩
          rcases List.mem_cons.mp hx with hx | hx
          · exact hx ▸ hret
          · exact hall x hx
        · exact Or.inr ⟨hstep.trans h1, cx, List.mem_cons_of_mem _ hcx, hne⟩
      · have hdm : tag__check_id_drift c (ret c).toNat type_id_off = -1 := by
          unfold tag__check_id_drift
          rw [if_pos]
          rw [Nat.mod_eq_of_lt (by omega)]
          omega
        refine Or.inr ⟨by simp [cu_type_pass_ids, hneg, hdm], c, by simp, fun he => ?_⟩
        apply hdrift
        rw [he]
        omega
theorem C1_witness :
    (cu_type_pass_ids (fun c => ((5 + c : Nat) : Int)) 5 [1, 2] = 0
      ∧ ∀ c ∈ [1, 2], (fun c => ((5 + c : Nat) : Int)) c = ((5 + c : Nat) : Int))
    ∨ (cu_type_pass_ids (fun c => ((5 + c : Nat) : Int)) 5 [1, 2] = -1
      ∧ ∃ c ∈ [1, 2], (fun c => ((5 + c : Nat) : Int)) c ≠ ((5 + c : Nat) : Int)) :=
  C1_id_drift _ 5 [1, 2] (by intro c hc; fin_cases hc <;> decide)

/-! ## Parameterless functions in kernel mode (claim C10) -/

/-- C10: `has_arg_names` is vacuously true for an empty parameter list, so
in kernel mode (non-empty function table) a parameterless function is
never skipped by the argument-name check: its fate is decided exactly by
`should_generate_function` (the name-table and generated-flag checks). -/
theorem C10_empty_params (tbl : List ElfFunction) (w : List BtfRecord)
    (name : String) (decl ext : Bool) (hne : tbl ≠ []) :
    has_arg_names [] = true
    ∧ cu_func_step tbl w ⟨name, [], decl, ext⟩
        = (let r := should_generate_function tbl name
           if r.1 then (r.2, emit_function w name) else (r.2, w)) := by
  refine ⟨rfl, ?_⟩
  have hlen : tbl.length ≠ 0 := fun h => hne (List.length_eq_zero.mp h)
  simp [cu_func_step, has_arg_names, hlen]

theorem C10_witness :
    cu_func_step [⟨"f", 1, false⟩] [] ⟨"f", [], false, true⟩
      = ([⟨"f", 1, true⟩], emit_function [] "f") := by
  have h := C10_empty_params [⟨"f", 1, false⟩] [] "f" false true (by simp)
  exact h.2.trans (by decide)

/-! ## Void-typed per-CPU variables (claim C7) -/

/-- C7: in the variable pass, a variable that survives the
declaration/scope skips and whose address is found in the per-CPU table
but whose resolved type is 0 (void) is reported as an error: under force
it is skipped and the pass continues with the remaining variables,
otherwise the pass stops with the fatal status -1 (`err = -1; break`,
which `cu__encode_btf` then returns through `out`). -/
theorem C7_void_percpu (force : Bool) (type_id_off base : Nat)
    (percpu : List VarInfo) (w : List BtfRecord) (sec : List SecInfo)
    (v : Variable) (rest : List Variable) (sz : Nat) (nm : String)
    (h1 : (v.declaration && v.spec.isNone) = false)
    (h2 : (!v.data.scope_global && v.spec.isNone) = false)
    (h3 : percpu_var_exists percpu v.data.addr = some (sz, nm))
    (h4 : (v.spec.getD v.data).typ = 0) :
    cu_var_pass force type_id_off base percpu w sec (v :: rest)
      = if force then cu_var_pass force type_id_off base percpu w sec rest
        else (-1, w, sec) := by
  simp only [cu_var_pass, h1, h2, h3, h4]
  simp

theorem C7_witness :
    cu_var_pass false 0 0 [⟨100, 8, "v"⟩] [] []
      [⟨false, ⟨true, 100, 0, true⟩, none⟩] = (-1, [], []) := by
  have h := C7_void_percpu false 0 0 [⟨100, 8, "v"⟩] [] []
    ⟨false, ⟨true, 100, 0, true⟩, none⟩ [] 8 "v" (by decide) (by decide) (by decide) (by decide)
  simpa using h

/-! ## Finalization (claim C8) -/

/-- C8 (amended): `btf_encoder__encode` adds a per-CPU DATASEC record iff
the per-CPU section-info buffer is non-empty, returns the flush status,
clears the function table, and deletes the writer (the active pointer
becomes null) — but it does NOT clear the per-CPU variable table, which is
only reset when the next session's `collect_symbols` runs. -/
theorem C8_finalize (encodeRet : Int) (b : Btfe) (g : GlobalState) :
    btf_encoder__encode false encodeRet b g
      = (encodeRet,
         (if b.percpu_secinfo.length ≠ 0
          then b.types ++ [.datasecRec PERCPU_SECTION b.percpu_secinfo]
          else b.types),
         none,
         { g with functions := [] })
    ∧ (btf_encoder__encode false encodeRet b g).2.2.2.percpu_vars = g.percpu_vars := by
  constructor
  · simp only [btf_encoder__encode]
    split <;> rfl
  · rfl

/-- C8 counterexample: finalizing with a non-empty per-CPU variable table
leaves that table intact — the claim's "clears the per-CPU variable table"
does not happen. -/
theorem C8_counterexample :
    ((btf_encoder__encode false 0 ⟨[], [], 0, false, 0⟩
        ⟨[], [⟨0, 4, "v"⟩], false, false, 0⟩).2.2.2).percpu_vars ≠ [] := by
  decide

/-! ## At-most-once function emission (claim C2) -/

lemma sgf_snd_of_false (tbl : List ElfFunction) (n : String)
    (h : (should_generate_function tbl n).1 = false) :
    (should_generate_function tbl n).2 = tbl := by
  induction tbl with
  | nil => rfl
  | cons f rest ih =>
    by_cases hn : f.name = n
    · by_cases hg : f.generated
      · simp [should_generate_function, hn, hg]
      · simp [should_generate_function, hn, hg] at h
    · simp only [should_generate_function, if_neg hn] at h ⊢
      rw [ih h]

lemma sgf_map_name (tbl : List ElfFunction) (n : String) :
    (should_generate_function tbl n).2.map (fun f => f.name)
      = tbl.map (fun f => f.name) := by
  induction tbl with
  | nil => rfl
  | cons f rest ih =>
    by_cases hn : f.name = n
    · by_cases hg : f.generated <;> simp [should_generate_function, hn, hg]
    · simp only [should_generate_function, if_neg hn, List.map_cons]
      rw [ih]

lemma sgf_length (tbl : List ElfFunction) (n : String) :
    (should_generate_function tbl n).2.length = tbl.length := by
  have h := congrArg List.length (sgf_map_name tbl n)
  simpa using h

lemma sgf_countFree_other (tbl : List ElfFunction) (n m : String) (hm : m ≠ n) :
    countFree (should_generate_function tbl n).2 m = countFree tbl m := by
  induction tbl with
  | nil => rfl
  | cons f rest ih =>
    by_cases hn : f.name = n
    · by_cases hg : f.generated
      · simp [should_generate_function, hn, hg]
      · have hnm : ¬n = m := fun he => hm he.symm
        simp [should_generate_function, hn, hg, countFree, List.countP_cons, hnm]
    · simp only [should_generate_function, if_neg hn, countFree, List.countP_cons]
      simp only [countFree] at ih
      rw [ih]

lemma sgf_countFree_true (tbl : List ElfFunction) (n : String)
    (h : (should_generate_function tbl n).1 = true) :
    countFree (should_generate_function tbl n).2 n + 1 = countFree tbl n := by
  induction tbl with
  | nil => simp [should_generate_function] at h
  | cons f rest ih =>
    by_cases hn : f.name = n
    · by_cases hg : f.generated
      · simp [should_generate_function, hn, hg] at h
      · simp [should_generate_function, hn, hg, countFree, List.countP_cons]
    · simp only [should_generate_function, if_neg hn] at h
      simp only [should_generate_function, if_neg hn, countFree, List.countP_cons]
      simp only [countFree] at ih
      have hih := ih h
      omega

lemma funcNames_append (w₁ w₂ : List BtfRecord) :
    funcNames (w₁ ++ w₂) = funcNames w₁ ++ funcNames w₂ :=
  List.filterMap_append ..

lemma funcNames_emit (w : List BtfRecord) (n : String) :
    funcNames (emit_function w n) = funcNames w ++ [n] := by
  show funcNames ((w ++ [.funcProto]) ++ [_]) = _
  rw [funcNames_append, funcNames_append]
  simp [funcNames, List.filterMap_cons]

lemma func_step_inv (tbl : List ElfFunction) (w : List BtfRecord) (fn : Function)
    (hne : tbl ≠ [])
    (h : ∀ m, (funcNames w).count m + countFree tbl m ≤ 1) :
    (cu_func_step tbl w fn).1 ≠ []
    ∧ ∀ m, (funcNames (cu_func_step tbl w fn).2).count m
        + countFree (cu_func_step tbl w fn).1 m ≤ 1 := by
  have hlen : tbl.length ≠ 0 := fun hz => hne (List.length_eq_zero.mp hz)
  by_cases ha : has_arg_names fn.params
  · cases hr : (should_generate_function tbl fn.name).1 with
    | false =>
      have hsnd := sgf_snd_of_false tbl fn.name hr
      have hstep : cu_func_step tbl w fn = (tbl, w) := by
        simp [cu_func_step, hlen, ha, hr, hsnd]
      rw [hstep]
      exact ⟨hne, h⟩
    | true =>
      have hstep : cu_func_step tbl w fn
          = ((should_generate_function tbl fn.name).2, emit_function w fn.name) := by
        simp [cu_func_step, hlen, ha, hr]
      rw [hstep]
      constructor
      · show (should_generate_function tbl fn.name).2 ≠ []
        intro hnil
        apply hne
        apply List.length_eq_zero.mp
        rw [← sgf_length tbl fn.name, hnil]
        rfl
      · intro m
        show (funcNames (emit_function w fn.name)).count m
            + countFree (should_generate_function tbl fn.name).2 m ≤ 1
        rw [funcNames_emit, List.count_append]
        by_cases hm : m = fn.name
        · subst hm
          have h1 := sgf_countFree_true tbl fn.name hr
          have h2 := h fn.name
          have hc1 : List.count fn.name [fn.name] = 1 := by simp
          omega
        · have h1 := sgf_countFree_other tbl fn.name m hm
          have h2 := h m
          have hc0 : List.count m [fn.name] = 0 := by simp [List.count_cons, hm]
          omega
  · have hstep : cu_func_step tbl w fn = (tbl, w) := by
      simp [cu_func_step, hlen, ha]
    rw [hstep]
    exact ⟨hne, h⟩

lemma func_pass_inv (fns : List Function) :
    ∀ (tbl : List ElfFunction) (w : List BtfRecord), tbl ≠ [] →
      (∀ m, (funcNames w).count m + countFree tbl m ≤ 1) →
      (cu_func_pass tbl w fns).1 ≠ []
      ∧ ∀ m, (funcNames (cu_func_pass tbl w fns).2).count m
          + countFree (cu_func_pass tbl w fns).1 m ≤ 1 := by
  induction fns with
  | nil => intro tbl w hne h; exact ⟨hne, h⟩
  | cons fn rest ih =>
    intro tbl w hne h
    have hs := func_step_inv tbl w fn hne h
    simp only [cu_func_pass]
    exact ih _ _ hs.1 hs.2

lemma session_inv (cus : List (List Function)) :
    ∀ (tbl : List ElfFunction) (w : List BtfRecord), tbl ≠ [] →
      (∀ m, (funcNames w).count m + countFree tbl m ≤ 1) →
      ∀ m, (funcNames (session_func_pass tbl w cus).2).count m ≤ 1 := by
  induction cus with
  | nil =>
    intro tbl w _hne h m
    have := h m
    simp only [session_func_pass]
    omega
  | cons fns cus ih =>
    intro tbl w hne h m
    have hp := func_pass_inv fns tbl w hne h
    simp only [session_func_pass]
    exact ih _ _ hp.1 hp.2 m

lemma count_map_name (tbl : List ElfFunction) (m : String) :
    (tbl.map (fun f => f.name)).count m = tbl.countP (fun f => f.name == m) := by
  induction tbl with
  | nil => rfl
  | cons f rest ih =>
    by_cases hm : f.name = m
    · simp [List.count_cons, List.countP_cons, ih, hm]
    · have hm' : ¬m = f.name := fun he => hm he.symm
      simp [List.count_cons, List.countP_cons, ih, hm, hm']

lemma countFree_le (tbl : List ElfFunction) (m : String) :
    countFree tbl m ≤ tbl.countP (fun f => f.name == m) := by
  unfold countFree
  induction tbl with
  | nil => simp
  | cons f rest ih =>
    simp only [List.countP_cons]
    by_cases hm : (f.name == m) = true <;> by_cases hg : f.generated = true <;>
      simp [hm, hg] <;> omega

/-- C2 (amended): in kernel mode — a non-empty function table whose names
are pairwise distinct — every function name is emitted as a FUNC entry at
most once across all CUs of an encoding session, enforced by the
`generated` flag that `should_generate_function` sets on first use.  (In
standalone mode the declaration/external check alone does NOT bound
repetitions; see the counterexample.) -/
theorem C2_func_at_most_once (tbl : List ElfFunction) (cus : List (List Function))
    (hne : tbl ≠ []) (hnd : (tbl.map (fun f => f.name)).Nodup) (n : String) :
    (funcNames (session_func_pass tbl [] cus).2).count n ≤ 1 := by
  apply session_inv cus tbl [] hne
  intro m
  have h1 := countFree_le tbl m
  have h2 : (tbl.map (fun f => f.name)).count m ≤ 1 :=
    List.nodup_iff_count_le_one.mp hnd m
  rw [count_map_name] at h2
  have h3 : (funcNames ([] : List BtfRecord)).count m = 0 := rfl
  omega

theorem C2_witness :
    (funcNames (session_func_pass [⟨"f", 1, false⟩] []
        [[⟨"f", [], false, true⟩], [⟨"f", [], false, true⟩]]).2).count "f" ≤ 1 :=
  C2_func_at_most_once [⟨"f", 1, false⟩] [[⟨"f", [], false, true⟩], [⟨"f", [], false, true⟩]]
    (by simp) (by simp) "f"

/-- C2 counterexample: in standalone mode (empty function table) a session
of two CUs each holding a defined external function named `foo` emits two
FUNC entries with that name — the declaration/external check does not make
emission at-most-once per name. -/
theorem C2_counterexample :
    1 < (funcNames (session_func_pass [] []
        [[⟨"foo", [], false, true⟩], [⟨"foo", [], false, true⟩]]).2).count "foo" := by
  decide

/-! ## Writer failures (claim C3) -/

lemma cu_var_pass_fst_indep (force : Bool) (off base : Nat) (percpu : List VarInfo)
    (vs : List Variable) :
    ∀ (w w' : List BtfRecord) (sec sec' : List SecInfo),
      (cu_var_pass force off base percpu w sec vs).1
        = (cu_var_pass force off base percpu w' sec' vs).1 := by
  induction vs with
  | nil => intros; rfl
  | cons v rest ih =>
    intro w w' sec sec'
    cases h1 : (v.declaration && v.spec.isNone) with
    | true => simp only [cu_var_pass, h1, if_true]; exact ih _ _ _ _
    | false =>
      cases h2 : (!v.data.scope_global && v.spec.isNone) with
      | true => simp [cu_var_pass, h1, h2]; exact ih _ _ _ _
      | false =>
        cases hpe : percpu_var_exists percpu v.data.addr with
        | none => simp [cu_var_pass, h1, h2, hpe]; exact ih _ _ _ _
        | some p =>
          obtain ⟨size, name⟩ := p
          by_cases h4 : (v.spec.getD v.data).typ = 0
          · cases force with
            | false => simp [cu_var_pass, h1, h2, hpe, h4]
            | true => simp [cu_var_pass, h1, h2, hpe, h4]; exact ih _ _ _ _
          · simp [cu_var_pass, h1, h2, hpe, h4]; exact ih _ _ _ _

lemma cu_func_step_fst_indep (tbl : List ElfFunction) (fn : Function)
    (w w' : List BtfRecord) :
    (cu_func_step tbl w fn).1 = (cu_func_step tbl w' fn).1 := by
  unfold cu_func_step
  by_cases hlen : tbl.length ≠ 0
  · by_cases ha : has_arg_names fn.params
    · cases hr : (should_generate_function tbl fn.name).1 <;> simp [hlen, ha, hr]
    · simp [hlen, ha]
  · by_cases hd : (fn.declaration || !fn.external) = true <;> simp [hlen, hd]

lemma cu_func_pass_fst_indep (fns : List Function) :
    ∀ (tbl : List ElfFunction) (w w' : List BtfRecord),
      (cu_func_pass tbl w fns).1 = (cu_func_pass tbl w' fns).1 := by
  induction fns with
  | nil => intros; rfl
  | cons fn rest ih =>
    intro tbl w w'
    simp only [cu_func_pass]
    have hstep := cu_func_step_fst_indep tbl fn w w'
    calc (cu_func_pass (cu_func_step tbl w fn).1 (cu_func_step tbl w fn).2 rest).1
        = (cu_func_pass (cu_func_step tbl w fn).1 (cu_func_step tbl w' fn).2 rest).1 :=
          ih _ _ _
      _ = (cu_func_pass (cu_func_step tbl w' fn).1 (cu_func_step tbl w' fn).2 rest).1 := by
          rw [hstep]

lemma cu_synthetic_step_fst (need has sf : Bool) (w : List BtfRecord) :
    (cu_synthetic_step need has sf w).1 = (cu_synthetic_step need has false w).1 := by
  unfold cu_synthetic_step
  cases (need && !has) <;> simp

lemma cu_encode_types_synth (tags : List Tag) (has : Bool) (aid : Nat) (need : Bool)
    (w : List BtfRecord) (sf : Bool) :
    (cu_encode_types tags sf has aid need w).1
        = (cu_encode_types tags false has aid need w).1
    ∧ (cu_encode_types tags sf has aid need w).2.1
        = (cu_encode_types tags false has aid need w).2.1
    ∧ (cu_encode_types tags sf has aid need w).2.2.1
        = (cu_encode_types tags false has aid need w).2.2.1
    ∧ (cu_encode_types tags sf has aid need w).2.2.2.1
        = (cu_encode_types tags false has aid need w).2.2.2.1 := by
  simp only [cu_encode_types]
  by_cases hr : (cu_type_pass
      (index_prep has aid w.length tags.length (cu__find_base_type_by_name tags "int")).2
      w.length need w 1 tags).1 < 0
  · simp [hr]
  · simp [hr, cu_synthetic_step_fst]

lemma body_fst_synth (cu : Cu) (force skip : Bool) (b : Btfe) (g : GlobalState) :
    (cu__encode_btf_body cu force skip true b g).1
      = (cu__encode_btf_body cu force skip false b g).1 := by
  obtain ⟨h1, _h2, _h3, _h4⟩ := cu_encode_types_synth cu.types g.has_index_type
    g.array_index_id g.need_index_type b.types true
  simp only [cu__encode_btf_body]
  rw [h1]
  by_cases hr : (cu_encode_types cu.types false g.has_index_type g.array_index_id
      g.need_index_type b.types).1 < 0
  · simp [hr]
  · simp only [hr, if_false]
    by_cases hs : skip
    · simp [hs]
    · by_cases hx : b.percpu_shndx = 0 ∨ b.has_symtab = false
      · simp [hs, hx]
      · have hv := cu_var_pass_fst_indep force b.types.length b.percpu_base_addr
          g.percpu_vars cu.vars
          (cu_func_pass g.functions
            (cu_encode_types cu.types true g.has_index_type g.array_index_id
              g.need_index_type b.types).2.2.2.2 cu.functions).2
          (cu_func_pass g.functions
            (cu_encode_types cu.types false g.has_index_type g.array_index_id
              g.need_index_type b.types).2.2.2.2 cu.functions).2
          b.percpu_secinfo b.percpu_secinfo
        simp only [hs, hx, if_false]
        rw [hv]
        by_cases hvlt : (cu_var_pass force b.types.length b.percpu_base_addr g.percpu_vars
            (cu_func_pass g.functions
              (cu_encode_types cu.types false g.has_index_type g.array_index_id
                g.need_index_type b.types).2.2.2.2 cu.functions).2
            b.percpu_secinfo cu.vars).1 < 0 <;> simp [hvlt]

/-- C3 (amended): a negative return from a writer `add_*` operation is
fatal at the call sites where the encoder checks the returned value — in
particular a negative id during the type pass aborts with -1 — but the two
call sites the claim singles out ignore the returned value: the status of
`cu__encode_btf` does not depend on the result of the
`btf_elf__add_base_type` call that emits the synthetic
`__ARRAY_SIZE_TYPE__`, and `btf_encoder__encode` returns the flush status
regardless of what `btf_elf__add_datasec_type` returned. -/
theorem C3_writer_failures (cu : Cu) (force skip : Bool) (b : Btfe) (g : GlobalState)
    (datasecFail : Bool) (encodeRet : Int) (ret : Nat → Int) (off c : Nat)
    (rest : List Nat) (h : ret c < 0) :
    (cu__encode_btf_body cu force skip true b g).1
        = (cu__encode_btf_body cu force skip false b g).1
    ∧ (btf_encoder__encode datasecFail encodeRet b g).1 = encodeRet
    ∧ cu_type_pass_ids ret off (c :: rest) = -1 := by
  refine ⟨body_fst_synth cu force skip b g, rfl, ?_⟩
  simp [cu_type_pass_ids, h]

theorem C3_witness :
    ((cu__encode_btf_body ⟨[], [], []⟩ false true true ⟨[], [], 0, false, 0⟩
        ⟨[], [], false, false, 0⟩).1
      = (cu__encode_btf_body ⟨[], [], []⟩ false true false ⟨[], [], 0, false, 0⟩
        ⟨[], [], false, false, 0⟩).1)
    ∧ (btf_encoder__encode false 0 ⟨[], [], 0, false, 0⟩ ⟨[], [], false, false, 0⟩).1 = 0
    ∧ cu_type_pass_ids (fun _ => -1) 0 [1] = -1 :=
  C3_writer_failures ⟨[], [], []⟩ false true ⟨[], [], 0, false, 0⟩ ⟨[], [], false, false, 0⟩
    false 0 (fun _ => -1) 0 1 [] (by decide)

/-- C3 counterexample: a CU whose only tag is an array (so the synthetic
`__ARRAY_SIZE_TYPE__` base type is due) where the writer rejects the
synthetic `btf_elf__add_base_type` (negative return, nothing stored,
modelled by `synthFail = true`): `cu__encode_btf` nevertheless returns 0,
keeps the writer alive, and marks `has_index_type` — the rejected `add_*`
was not treated as fatal. -/
theorem C3_counterexample :
    cu__encode_btf_body ⟨[Tag.array_type 0 [2]], [], []⟩ false true true
        ⟨[], [], 0, false, 0⟩ ⟨[], [], false, false, 0⟩
      = (0, some ⟨[.arrayRec 0 1 2], [], 0, false, 0⟩, ⟨[], [], true, true, 1⟩) := by
  decide

/-! ## Synthetic array index type (claim C4) -/

lemma tag_encode_ok (t : Tag) (aid off : Nat) (w : List BtfRecord)
    (h : t.isUnsupported = false) :
    ∃ rec, tag__encode_btf t aid off w
      = (((w.length + 1 : Nat) : Int), w ++ [rec], t.isArray) := by
  cases t with
  | base_type name bs => exact ⟨_, rfl⟩
  | const_type t => exact ⟨_, rfl⟩
  | pointer_type t => exact ⟨_, rfl⟩
  | restrict_type t => exact ⟨_, rfl⟩
  | volatile_type t => exact ⟨_, rfl⟩
  | typedef t n => exact ⟨_, rfl⟩
  | composite kind typ name decl size mems =>
    cases decl
    · exact ⟨_, rfl⟩
    · exact ⟨_, rfl⟩
  | array_type t dims => exact ⟨_, rfl⟩
  | enumeration_type n s vals => exact ⟨_, rfl⟩
  | subroutine_type t => exact ⟨_, rfl⟩
  | unsupported a b => simp [Tag.isUnsupported] at h

lemma cu_type_pass_ok (aid off : Nat) (tags : List Tag) :
    ∀ (need : Bool) (w : List BtfRecord) (core_id : Nat),
      w.length + 1 = off + core_id →
      off + core_id + tags.length ≤ U32 →
      (∀ t ∈ tags, t.isUnsupported = false) →
      ∃ Δ : List BtfRecord, Δ.length = tags.length ∧
        cu_type_pass aid off need w core_id tags
          = (0, need || tags.any Tag.isArray, w ++ Δ) := by
  induction tags with
  | nil =>
    intro need w core_id _ _ _
    exact ⟨[], rfl, by simp [cu_type_pass]⟩
  | cons t rest ih =>
    intro need w core_id hw hb hsupp
    obtain ⟨rec, hrec⟩ := tag_encode_ok t aid off w (hsupp t (by simp))
    have hblt : core_id + off < U32 := by
      simp only [List.length_cons] at hb
      omega
    have hdr : tag__check_id_drift core_id ((w.length + 1 : Nat) : Int).toNat off = 0 := by
      unfold tag__check_id_drift
      rw [if_neg]
      simp only [ne_eq, not_not, Int.toNat_natCast]
      rw [Nat.mod_eq_of_lt hblt]
      omega
    have hstep : cu_type_pass aid off need w core_id (t :: rest)
        = cu_type_pass aid off (need || t.isArray) (w ++ [rec]) (core_id + 1) rest := by
      simp only [cu_type_pass, hrec]
      have hdr2 : tag__check_id_drift core_id (w.length + 1) off = 0 := by
        simpa using hdr
      have hnn : ¬((w.length : Int) + 1 < 0) := by omega
      simp [hdr2, hnn]
    obtain ⟨Δ, hlen, hrest⟩ := ih (need || t.isArray) (w ++ [rec]) (core_id + 1)
      (by simp only [List.length_append, List.length_cons, List.length_nil]; omega)
      (by simp only [List.length_cons] at hb ⊢; omega)
      (fun x hx => hsupp x (by simp [hx]))
    refine ⟨rec :: Δ, by simp [hlen], ?_⟩
    rw [hstep, hrest]
    simp [Bool.or_assoc]

lemma cu_encode_types_eq (tags : List Tag) (sf has : Bool) (aid : Nat) (need : Bool)
    (w : List BtfRecord) (p : Bool × Nat) (r : Int × Bool × List BtfRecord)
    (hp : index_prep has aid w.length tags.length
        (cu__find_base_type_by_name tags "int") = p)
    (hr : cu_type_pass p.2 w.length need w 1 tags = r) :
    cu_encode_types tags sf has aid need w
      = if r.1 < 0 then (-1, p.1, p.2, r.2.1, r.2.2)
        else (0, (cu_synthetic_step r.2.1 p.1 sf r.2.2).1, p.2, r.2.1,
              (cu_synthetic_step r.2.1 p.1 sf r.2.2).2) := by
  subst hp
  subst hr
  rfl

lemma findBaseTypeGo_le (name : String) (l : List Tag) :
    ∀ k i, findBaseTypeGo name l k = some i → k ≤ i ∧ i < k + l.length := by
  induction l with
  | nil => intro k i h; simp [findBaseTypeGo] at h
  | cons t rest ih =>
    intro k i h
    cases t
    case base_type n bs =>
      simp only [findBaseTypeGo] at h
      by_cases hn : n = name
      · rw [if_pos hn] at h
        injection h with h
        subst h
        simp only [List.length_cons]
        omega
      · rw [if_neg hn] at h
        have := ih (k + 1) i h
        simp only [List.length_cons]
        omega
    all_goals
      simp only [findBaseTypeGo] at h
      have := ih (k + 1) i h
      simp only [List.length_cons]
      omega

lemma find_base_some_le (types : List Tag) (name : String) (i : Nat)
    (h : cu__find_base_type_by_name types name = some i) :
    1 ≤ i ∧ i ≤ types.length := by
  have := findBaseTypeGo_le name types 1 i h
  omega

/-- C4: starting a CU with `has_index_type` still false: if no base type
named "int" exists and at least one array tag is encoded, the CU's type
emission is exactly one record per tag, in order, followed by one
synthetic 32-bit base type named `__ARRAY_SIZE_TYPE__` (after every tag of
the type table), with `array_index_id` reserved one slot past the table;
if a real "int" is found, `array_index_id` becomes `type_id_off` plus the
int's core ID and no synthetic type is emitted. -/
theorem C4_synthetic_index (tags : List Tag) (aid0 : Nat) (w : List BtfRecord)
    (hsupp : ∀ t ∈ tags, t.isUnsupported = false)
    (hbound : w.length + tags.length < U32) :
    (cu__find_base_type_by_name tags "int" = none → tags.any Tag.isArray = true →
      ∃ Δ : List BtfRecord, Δ.length = tags.length ∧
        cu_encode_types tags false false aid0 false w
          = (0, true, w.length + tags.length, true,
             w ++ Δ ++ [.base "__ARRAY_SIZE_TYPE__" 32]))
    ∧ (∀ i, cu__find_base_type_by_name tags "int" = some i →
      ∃ Δ : List BtfRecord, Δ.length = tags.length ∧
        cu_encode_types tags false false aid0 false w
          = (0, true, w.length + i, tags.any Tag.isArray, w ++ Δ)) := by
  constructor
  · intro hfind harr
    have hmod : (w.length + tags.length) % U32 = w.length + tags.length :=
      Nat.mod_eq_of_lt hbound
    obtain ⟨Δ, hlen, hpass⟩ := cu_type_pass_ok ((w.length + tags.length) % U32) w.length
      tags false w 1 rfl (by omega) hsupp
    refine ⟨Δ, hlen, ?_⟩
    have hprep : index_prep false aid0 w.length tags.length
        (cu__find_base_type_by_name tags "int")
          = (false, (w.length + tags.length) % U32) := by
      rw [hfind]
      rfl
    rw [cu_encode_types_eq tags false false aid0 false w _ _ hprep hpass]
    simp [cu_synthetic_step, harr, hmod, List.append_assoc]
  · intro i hfind
    have hle := find_base_some_le tags "int" i hfind
    have hmod : (w.length + i) % U32 = w.length + i :=
      Nat.mod_eq_of_lt (by omega)
    obtain ⟨Δ, hlen, hpass⟩ := cu_type_pass_ok ((w.length + i) % U32) w.length
      tags false w 1 rfl (by omega) hsupp
    refine ⟨Δ, hlen, ?_⟩
    have hprep : index_prep false aid0 w.length tags.length
        (cu__find_base_type_by_name tags "int") = (true, (w.length + i) % U32) := by
      rw [hfind]
      rfl
    rw [cu_encode_types_eq tags false false aid0 false w _ _ hprep hpass]
    simp [cu_synthetic_step, hmod]

theorem C4_witness :
    (cu__find_base_type_by_name [Tag.array_type 0 [3]] "int" = none →
        [Tag.array_type 0 [3]].any Tag.isArray = true →
      ∃ Δ : List BtfRecord, Δ.length = [Tag.array_type 0 [3]].length ∧
        cu_encode_types [Tag.array_type 0 [3]] false false 0 false []
          = (0, true, List.length ([] : List BtfRecord) + [Tag.array_type 0 [3]].length,
             true, [] ++ Δ ++ [.base "__ARRAY_SIZE_TYPE__" 32]))
    ∧ (∀ i, cu__find_base_type_by_name [Tag.array_type 0 [3]] "int" = some i →
      ∃ Δ : List BtfRecord, Δ.length = [Tag.array_type 0 [3]].length ∧
        cu_encode_types [Tag.array_type 0 [3]] false false 0 false []
          = (0, true, List.length ([] : List BtfRecord) + i,
             [Tag.array_type 0 [3]].any Tag.isArray, [] ++ Δ)) :=
  C4_synthetic_index [Tag.array_type 0 [3]] 0 []
    (by intro t ht; simp at ht; subst ht; rfl) (by decide)

end BtfEnc
